import Mathlib

/-!
Shallow embedding of the Payport event engine backend (TypeScript sources:
src/index.ts in its ephemeral and persistent variants, src/sessionStore.ts in
its in-memory and MongoDB-backed variants, src/eventEngine.ts, src/utils.ts).

Conventions of the embedding:
* Timestamps (Date.now() values) are natural numbers of epoch milliseconds.
* The JavaScript Map backing the in-memory session store and the MongoDB
  collections are modelled as association lists keyed by email, read through
  mapGet (the first matching entry, as both Map.get and findOne return one
  matching record).
* Math.random() draws are passed in explicitly: as a rational in [0,1) where
  only order comparisons on the draw matter, and as a natural number k
  (representing the double k / 2^53) where the base-36 digit expansion of the
  draw matters.  Numeric literals of the source are read as exact rationals.
* Thrown JavaScript errors are modelled with Except; a fallible store
  operation also returns the store so that frame conditions are statable (a
  throw performs no mutation, so the store is returned unchanged there).
-/

namespace Payport

/-- Traffic modes, from src/types.ts (the EventMode union). -/
inductive EventMode where
  | normal
  | high_traffic
  | country_focus
  | payment_spike
  | chaos
deriving DecidableEq, Repr

/-- Session record, from src/types.ts. -/
structure Session where
  email : String
  name : String
  endsAt : Nat
  isActive : Bool
  mode : EventMode
deriving DecidableEq, Repr

/-- Association-list read: the first entry with the given key (Map.get and
findOne-by-email semantics). -/
def mapGet {β : Type} : List (String × β) → String → Option β
  | [], _ => none
  | (k, v) :: rest, key => if k = key then some v else mapGet rest key

/-- Association-list write: replace the first entry with the given key, or
append a new entry (Map.set semantics; also updateOne applying a $set to the
matched document). -/
def mapSet {β : Type} : List (String × β) → String → β → List (String × β)
  | [], key, v => [(key, v)]
  | (k, w) :: rest, key, v =>
    if k = key then (key, v) :: rest else (k, w) :: mapSet rest key v

/-- Association-list delete (Map.delete and deleteOne semantics; keys are
unique in both backing stores, so removing every matching entry coincides
with removing the one matching entry). -/
def mapDelete {β : Type} (m : List (String × β)) (key : String) : List (String × β) :=
  m.filter (fun p => p.1 != key)

theorem mapGet_mapSet {β : Type} (m : List (String × β)) (k q : String) (v : β) :
    mapGet (mapSet m k v) q = if k = q then some v else mapGet m q := by
  induction m with
  | nil =>
    simp only [mapSet, mapGet]
  | cons hd tl ih =>
    obtain ⟨k0, v0⟩ := hd
    by_cases h0 : k0 = k
    · subst h0
      by_cases hq : k0 = q
      · subst hq
        simp [mapSet, mapGet]
      · simp [mapSet, mapGet, hq]
    · by_cases hq : k0 = q
      · subst hq
        have hk : ¬ k = k0 := fun h => h0 h.symm
        simp [mapSet, mapGet, h0, hk]
      · simp [mapSet, mapGet, h0, hq, ih]

theorem mapSet_self {β : Type} (m : List (String × β)) (k : String) (v : β)
    (h : mapGet m k = some v) : mapSet m k v = m := by
  induction m with
  | nil => simp [mapGet] at h
  | cons hd tl ih =>
    obtain ⟨k0, v0⟩ := hd
    by_cases h0 : k0 = k
    · subst h0
      have h1 : v0 = v := by simpa [mapGet] using h
      subst h1
      simp [mapSet]
    · have h1 : mapGet tl k = some v := by simpa [mapGet, h0] using h
      simp [mapSet, h0, ih h1]

theorem mapGet_mapDelete {β : Type} (m : List (String × β)) (k q : String) :
    mapGet (mapDelete m k) q = if k = q then none else mapGet m q := by
  induction m with
  | nil =>
    by_cases h : k = q <;> simp [mapDelete, mapGet, h]
  | cons hd tl ih =>
    obtain ⟨k0, v0⟩ := hd
    by_cases h0 : k0 = k
    · subst h0
      rw [show mapDelete ((k0, v0) :: tl) k0 = mapDelete tl k0 by
        simp [mapDelete, List.filter_cons]]
      rw [ih]
      by_cases hq : k0 = q
      · simp [hq]
      · simp [mapGet, hq]
    · have hne : (k0 != k) = true := bne_iff_ne.mpr h0
      rw [show mapDelete ((k0, v0) :: tl) k = (k0, v0) :: mapDelete tl k by
        simp [mapDelete, List.filter_cons, hne]]
      by_cases hq : k0 = q
      · subst hq
        have hk : ¬ k = k0 := fun h => h0 h.symm
        simp [mapGet, hk]
      · simp [mapGet, hq, ih]

/-- The in-memory session map of src/sessionStore.ts (`const sessions = new
Map<string, Session>()`). -/
abbrev SessionMap : Type := List (String × Session)

/-- The full ephemeral store state: the session map plus the pending
`setTimeout` deletions scheduled by stopSession, as (due time, email) pairs. -/
structure EphState where
  sessions : SessionMap
  timers : List (Nat × String)
deriving Repr

namespace Ephemeral

/-- src/sessionStore.ts createSession: builds the record with isActive = true
and mode "normal" and stores it with Map.set. -/
def createSession (email name : String) (endsAt : Nat) (st : SessionMap) :
    Session × SessionMap :=
  let session : Session :=
    { email := email, name := name, endsAt := endsAt, isActive := true,
      mode := EventMode.normal }
  (session, mapSet st email session)

/-- src/sessionStore.ts getSession: returns null when untracked; when
Date.now() > endsAt it mutates the stored record to isActive = false
(unconditionally, which is idempotent) before returning it. -/
def getSession (now : Nat) (email : String) (st : SessionMap) :
    Option Session × SessionMap :=
  match mapGet st email with
  | none => (none, st)
  | some s =>
    if s.endsAt < now then
      let s1 := { s with isActive := false }
      (some s1, mapSet st email s1)
    else
      (some s, st)

/-- src/sessionStore.ts stopSession: marks the record inactive when found and
schedules `sessions.delete(email)` 5 minutes (300000 ms) later; the timeout is
unconditional and its handle is never kept, so nothing can cancel it.  When
the session is not found only a warning is logged. -/
def stopSession (now : Nat) (email : String) (st : EphState) : EphState :=
  match mapGet st.sessions email with
  | some s =>
    { sessions := mapSet st.sessions email { s with isActive := false },
      timers := st.timers ++ [(now + 5 * 60 * 1000, email)] }
  | none => st

/-- The body of the setTimeout scheduled by stopSession: an unconditional
`sessions.delete(email)` when the timer comes due; the fired timer leaves the
pending queue. -/
def fireTimer (t : Nat × String) (st : EphState) : EphState :=
  { sessions := mapDelete st.sessions t.2,
    timers := st.timers.erase t }

/-- src/sessionStore.ts updateMode: throws "Session not found" when the email
is untracked, otherwise overwrites only the mode field. -/
def updateMode (email : String) (mode : EventMode) (st : SessionMap) :
    Except String Unit × SessionMap :=
  match mapGet st email with
  | none => (Except.error "Session not found", st)
  | some s => (Except.ok (), mapSet st email { s with mode := mode })

/-- src/sessionStore.ts resumeSession: throws "Session not found" when the
email is untracked, otherwise forces isActive = true and endsAt =
Date.now() + durationMs. -/
def resumeSession (now : Nat) (email : String) (durationMs : Nat)
    (st : SessionMap) : Except String Session × SessionMap :=
  match mapGet st email with
  | none => (Except.error "Session not found", st)
  | some s =>
    let s1 := { s with isActive := true, endsAt := now + durationMs }
    (Except.ok s1, mapSet st email s1)

/-- src/sessionStore.ts createEvalSession: deletes any existing record for the
email, then stores a fresh one named "Evaluator" with endsAt = Date.now() +
durationMs; it does not touch pending stop timers. -/
def createEvalSession (now : Nat) (email : String) (durationMs : Nat)
    (mode : EventMode) (st : SessionMap) : Session × SessionMap :=
  let st1 := if (mapGet st email).isSome then mapDelete st email else st
  let session : Session :=
    { email := email, name := "Evaluator", endsAt := now + durationMs,
      isActive := true, mode := mode }
  (session, mapSet st1 email session)

/-- A sequence of bare getSession reads (arbitrary emails at arbitrary times),
threading the store: the only mutation a read can perform is the lazy-expiry
flip. -/
def readMany : List (Nat × String) → SessionMap → SessionMap
  | [], st => st
  | (t, e) :: rest, st => readMany rest (getSession t e st).2

end Ephemeral

namespace Persistent

/-- Persistent-variant sessionStore.ts createSession: insertOne into the
sessions collection, which carries the unique index on email established by
initSessionStore — inserting a duplicate email therefore throws a duplicate
key error and leaves the collection unchanged. -/
def createSession (email name : String) (endsAt : Nat) (st : SessionMap) :
    Except String Session × SessionMap :=
  if (mapGet st email).isSome then
    (Except.error "duplicate key", st)
  else
    let session : Session :=
      { email := email, name := name, endsAt := endsAt, isActive := true,
        mode := EventMode.normal }
    (Except.ok session, mapSet st email session)

/-- Persistent-variant sessionStore.ts getSession: findOne by email; when
Date.now() > endsAt and the record is still active, an updateOne persists
isActive = false and the returned copy is flipped as well. -/
def getSession (now : Nat) (email : String) (st : SessionMap) :
    Option Session × SessionMap :=
  match mapGet st email with
  | none => (none, st)
  | some s =>
    if s.endsAt < now ∧ s.isActive then
      (some { s with isActive := false },
       mapSet st email { s with isActive := false })
    else
      (some s, st)

/-- Persistent-variant sessionStore.ts updateMode: updateOne setting only the
mode field; matchedCount 0 (untracked email) throws "Session not found". -/
def updateMode (email : String) (mode : EventMode) (st : SessionMap) :
    Except String Unit × SessionMap :=
  match mapGet st email with
  | none => (Except.error "Session not found", st)
  | some s => (Except.ok (), mapSet st email { s with mode := mode })

/-- Persistent-variant sessionStore.ts resumeSession: findOneAndUpdate setting
isActive = true and endsAt = Date.now() + durationMs, returning the updated
document; a null result (untracked email) throws "Session not found". -/
def resumeSession (now : Nat) (email : String) (durationMs : Nat)
    (st : SessionMap) : Except String Session × SessionMap :=
  match mapGet st email with
  | none => (Except.error "Session not found", st)
  | some s =>
    let s1 := { s with isActive := true, endsAt := now + durationMs }
    (Except.ok s1, mapSet st email s1)

/-- A sequence of bare persistent getSession reads threading the store. -/
def readMany : List (Nat × String) → SessionMap → SessionMap
  | [], st => st
  | (t, e) :: rest, st => readMany rest (getSession t e st).2

end Persistent

theorem Session.set_inactive_self (s : Session) (h : s.isActive = false) :
    { s with isActive := false } = s := by
  cases s
  simp_all

theorem ephemeral_read_keeps_inactive (t : Nat) (e email : String)
    (st : SessionMap) (s : Session) (hs : mapGet st email = some s)
    (hi : s.isActive = false) :
    mapGet (Ephemeral.getSession t e st).2 email = some s := by
  unfold Ephemeral.getSession
  cases hm : mapGet st e with
  | none => simpa using hs
  | some s0 =>
    by_cases hexp : s0.endsAt < t
    · simp only [hexp, if_true, mapGet_mapSet]
      by_cases he : e = email
      · subst he
        have : s0 = s := by rw [hm] at hs; exact Option.some.inj hs
        subst this
        simp [Session.set_inactive_self s0 hi]
      · simp [he, hs]
    · simpa [hexp] using hs

theorem persistent_read_keeps_inactive (t : Nat) (e email : String)
    (st : SessionMap) (s : Session) (hs : mapGet st email = some s)
    (hi : s.isActive = false) :
    mapGet (Persistent.getSession t e st).2 email = some s := by
  unfold Persistent.getSession
  cases hm : mapGet st e with
  | none => simpa using hs
  | some s0 =>
    by_cases hc : s0.endsAt < t ∧ s0.isActive
    · simp only [if_pos hc, mapGet_mapSet]
      by_cases he : e = email
      · subst he
        rw [hm] at hs
        have h0 : s0 = s := Option.some.inj hs
        rw [h0] at hc
        rw [hi] at hc
        exact absurd hc.2 (by simp)
      · simp [he, hs]
    · simpa [hc] using hs

theorem ephemeral_readMany_keeps_inactive (reads : List (Nat × String)) :
    ∀ (st : SessionMap) (email : String) (s : Session),
      mapGet st email = some s → s.isActive = false →
      mapGet (Ephemeral.readMany reads st) email = some s := by
  induction reads with
  | nil => intro st email s hs _; simpa [Ephemeral.readMany] using hs
  | cons hd tl ih =>
    intro st email s hs hi
    obtain ⟨t, e⟩ := hd
    exact ih _ email s (ephemeral_read_keeps_inactive t e email st s hs hi) hi

theorem persistent_readMany_keeps_inactive (reads : List (Nat × String)) :
    ∀ (st : SessionMap) (email : String) (s : Session),
      mapGet st email = some s → s.isActive = false →
      mapGet (Persistent.readMany reads st) email = some s := by
  induction reads with
  | nil => intro st email s hs _; simpa [Persistent.readMany] using hs
  | cons hd tl ih =>
    intro st email s hs hi
    obtain ⟨t, e⟩ := hd
    exact ih _ email s (persistent_read_keeps_inactive t e email st s hs hi) hi

/-- C2: in both the in-memory and the database-backed session store, a
getSession read at a time t past the session's end-time returns the session
with isActive = false and persists that flip to the store, and once the
stored record is inactive no sequence of further getSession reads (of any
emails, at any times) ever changes it — in particular none ever sets
isActive back to true, so the flip is idempotent. -/
theorem c2_lazy_expiry_on_read :
    ∀ (st : SessionMap) (email : String) (s : Session) (t : Nat),
      (mapGet st email = some s → s.endsAt < t →
        (Ephemeral.getSession t email st).1 = some { s with isActive := false } ∧
        mapGet (Ephemeral.getSession t email st).2 email
          = some { s with isActive := false } ∧
        (Persistent.getSession t email st).1 = some { s with isActive := false } ∧
        mapGet (Persistent.getSession t email st).2 email
          = some { s with isActive := false }) ∧
      (mapGet st email = some s → s.isActive = false →
        (∀ reads, mapGet (Ephemeral.readMany reads st) email = some s) ∧
        (∀ reads, mapGet (Persistent.readMany reads st) email = some s)) := by
  intro st email s t
  constructor
  · intro hs hexp
    refine ⟨?_, ?_, ?_, ?_⟩
    · simp [Ephemeral.getSession, hs, hexp]
    · simp [Ephemeral.getSession, hs, hexp, mapGet_mapSet]
    · by_cases ha : s.isActive
      · simp [Persistent.getSession, hs, hexp, ha]
      · simp only [Bool.not_eq_true] at ha
        simp [Persistent.getSession, hs, hexp, ha,
          Session.set_inactive_self s ha]
    · by_cases ha : s.isActive
      · simp [Persistent.getSession, hs, hexp, ha, mapGet_mapSet]
      · simp only [Bool.not_eq_true] at ha
        simp [Persistent.getSession, hs, hexp, ha,
          Session.set_inactive_self s ha]
  · intro hs hi
    exact ⟨fun reads => ephemeral_readMany_keeps_inactive reads st email s hs hi,
           fun reads => persistent_readMany_keeps_inactive reads st email s hs hi⟩

/-- Witness for C2 at a concrete store: a session for a\@b.co that ended at
time 100 read at time 101. -/
theorem c2_lazy_expiry_on_read_witness :
    (mapGet [("a@b.co", Session.mk "a@b.co" "N" 100 true EventMode.normal)]
        "a@b.co" = some (Session.mk "a@b.co" "N" 100 true EventMode.normal)) ∧
    (100 < 101) ∧
    ((Ephemeral.getSession 101 "a@b.co"
        [("a@b.co", Session.mk "a@b.co" "N" 100 true EventMode.normal)]).1
      = some (Session.mk "a@b.co" "N" 100 false EventMode.normal)) := by
  have h := (c2_lazy_expiry_on_read
    [("a@b.co", Session.mk "a@b.co" "N" 100 true EventMode.normal)]
    "a@b.co" (Session.mk "a@b.co" "N" 100 true EventMode.normal) 101).1
    (by decide) (by decide)
  exact ⟨by decide, by decide, h.1⟩

/-- C4: in both store implementations, resumeSession on an untracked email
fails with the NotFound error ("Session not found") and returns the store
unchanged, while on any tracked session — active or not — it succeeds,
forces isActive = true, and sets endsAt = now + durationMs, persisting that
record. -/
theorem c4_resume_session :
    ∀ (st : SessionMap) (email : String) (now durationMs : Nat),
      (mapGet st email = none →
        Ephemeral.resumeSession now email durationMs st
          = (Except.error "Session not found", st) ∧
        Persistent.resumeSession now email durationMs st
          = (Except.error "Session not found", st)) ∧
      (∀ s, mapGet st email = some s →
        Ephemeral.resumeSession now email durationMs st
          = (Except.ok { s with isActive := true, endsAt := now + durationMs },
             mapSet st email
               { s with isActive := true, endsAt := now + durationMs }) ∧
        mapGet (Ephemeral.resumeSession now email durationMs st).2 email
          = some { s with isActive := true, endsAt := now + durationMs } ∧
        Persistent.resumeSession now email durationMs st
          = (Except.ok { s with isActive := true, endsAt := now + durationMs },
             mapSet st email
               { s with isActive := true, endsAt := now + durationMs }) ∧
        mapGet (Persistent.resumeSession now email durationMs st).2 email
          = some { s with isActive := true, endsAt := now + durationMs }) := by
  intro st email now durationMs
  constructor
  · intro hn
    exact ⟨by simp [Ephemeral.resumeSession, hn],
           by simp [Persistent.resumeSession, hn]⟩
  · intro s hs
    refine ⟨by simp [Ephemeral.resumeSession, hs], ?_,
            by simp [Persistent.resumeSession, hs], ?_⟩
    · simp [Ephemeral.resumeSession, hs, mapGet_mapSet]
    · simp [Persistent.resumeSession, hs, mapGet_mapSet]

/-- Witness for C4: an empty store fails with NotFound, and a store holding
one inactive expired session resumes it to an active session ending at
1000 + 60000. -/
theorem c4_resume_session_witness :
    (mapGet ([] : SessionMap) "a@b.co" = none) ∧
    (Ephemeral.resumeSession 1000 "a@b.co" 60000 [] =
      (Except.error "Session not found", [])) ∧
    (mapGet [("a@b.co", Session.mk "a@b.co" "N" 5 false EventMode.chaos)]
       "a@b.co" = some (Session.mk "a@b.co" "N" 5 false EventMode.chaos)) ∧
    (Ephemeral.resumeSession 1000 "a@b.co" 60000
        [("a@b.co", Session.mk "a@b.co" "N" 5 false EventMode.chaos)]).1
      = Except.ok (Session.mk "a@b.co" "N" 61000 true EventMode.chaos) := by
  refine ⟨by decide, ?_, by decide, ?_⟩
  · exact ((c4_resume_session [] "a@b.co" 1000 60000).1 (by decide)).1
  · have h := ((c4_resume_session
      [("a@b.co", Session.mk "a@b.co" "N" 5 false EventMode.chaos)]
      "a@b.co" 1000 60000).2
      (Session.mk "a@b.co" "N" 5 false EventMode.chaos) (by decide)).1
    rw [h]

/-- C10: in both store implementations, updateMode on a tracked session
succeeds with no condition on the session's activity flag or end-time, and
rewrites exactly the mode field: the updated record keeps the session's
email, name, endsAt and isActive, and the record of every other email is
untouched. -/
theorem c10_update_mode_frame :
    ∀ (st : SessionMap) (email : String) (mode : EventMode) (s : Session),
      mapGet st email = some s →
      (Ephemeral.updateMode email mode st).1 = Except.ok () ∧
      mapGet (Ephemeral.updateMode email mode st).2 email
        = some { s with mode := mode } ∧
      (∀ e2, e2 ≠ email →
        mapGet (Ephemeral.updateMode email mode st).2 e2 = mapGet st e2) ∧
      (Persistent.updateMode email mode st).1 = Except.ok () ∧
      mapGet (Persistent.updateMode email mode st).2 email
        = some { s with mode := mode } ∧
      (∀ e2, e2 ≠ email →
        mapGet (Persistent.updateMode email mode st).2 e2 = mapGet st e2) := by
  intro st email mode s hs
  refine ⟨by simp [Ephemeral.updateMode, hs], ?_, ?_,
          by simp [Persistent.updateMode, hs], ?_, ?_⟩
  · simp [Ephemeral.updateMode, hs, mapGet_mapSet]
  · intro e2 he2
    have hne : ¬ email = e2 := fun h => he2 h.symm
    simp [Ephemeral.updateMode, hs, mapGet_mapSet, hne]
  · simp [Persistent.updateMode, hs, mapGet_mapSet]
  · intro e2 he2
    have hne : ¬ email = e2 := fun h => he2 h.symm
    simp [Persistent.updateMode, hs, mapGet_mapSet, hne]

/-- Witness for C10: switching an inactive, already-expired session to chaos
mode succeeds and changes only its mode, leaving a second session alone. -/
theorem c10_update_mode_frame_witness :
    (mapGet [("a@b.co", Session.mk "a@b.co" "N" 5 false EventMode.normal),
             ("c@d.co", Session.mk "c@d.co" "M" 9 true EventMode.normal)]
       "a@b.co" = some (Session.mk "a@b.co" "N" 5 false EventMode.normal)) ∧
    mapGet (Ephemeral.updateMode "a@b.co" EventMode.chaos
        [("a@b.co", Session.mk "a@b.co" "N" 5 false EventMode.normal),
         ("c@d.co", Session.mk "c@d.co" "M" 9 true EventMode.normal)]).2
      "a@b.co" = some (Session.mk "a@b.co" "N" 5 false EventMode.chaos) ∧
    mapGet (Ephemeral.updateMode "a@b.co" EventMode.chaos
        [("a@b.co", Session.mk "a@b.co" "N" 5 false EventMode.normal),
         ("c@d.co", Session.mk "c@d.co" "M" 9 true EventMode.normal)]).2
      "c@d.co" = some (Session.mk "c@d.co" "M" 9 true EventMode.normal) := by
  have h := c10_update_mode_frame
    [("a@b.co", Session.mk "a@b.co" "N" 5 false EventMode.normal),
     ("c@d.co", Session.mk "c@d.co" "M" 9 true EventMode.normal)]
    "a@b.co" EventMode.chaos
    (Session.mk "a@b.co" "N" 5 false EventMode.normal) (by decide)
  exact ⟨by decide, h.2.1, by
    rw [h.2.2.1 "c@d.co" (by decide)]
    decide⟩

/-- C6 counterexample: in the ephemeral store, createSession for an email
that already has a session record replaces that record (Map.set overwrites),
so the claim that the existing record is never replaced or modified fails at
this concrete store. -/
theorem c6_create_session_counterexample :
    mapGet (Ephemeral.createSession "a@b.co" "New" 100
        [("a@b.co", Session.mk "a@b.co" "Old" 5 false EventMode.chaos)]).2
      "a@b.co" = some (Session.mk "a@b.co" "New" 100 true EventMode.normal) ∧
    mapGet (Ephemeral.createSession "a@b.co" "New" 100
        [("a@b.co", Session.mk "a@b.co" "Old" 5 false EventMode.chaos)]).2
      "a@b.co" ≠ some (Session.mk "a@b.co" "Old" 5 false EventMode.chaos) := by
  constructor
  · decide
  · decide

/-- C6 amended: createSession always produces a record with mode normal and
active = true in both implementations; records of other emails are untouched.
But only the persistent variant overwrites nothing — a duplicate insert hits
the unique email index, fails, and leaves the store unchanged — while the
ephemeral variant replaces any existing record for that email. -/
theorem c6_create_session_amended :
    ∀ (st : SessionMap) (email name : String) (endsAt : Nat),
      ((Ephemeral.createSession email name endsAt st).1
        = Session.mk email name endsAt true EventMode.normal) ∧
      (mapGet (Ephemeral.createSession email name endsAt st).2 email
        = some (Session.mk email name endsAt true EventMode.normal)) ∧
      (∀ e2, e2 ≠ email →
        mapGet (Ephemeral.createSession email name endsAt st).2 e2
          = mapGet st e2) ∧
      (mapGet st email = none →
        Persistent.createSession email name endsAt st
          = (Except.ok (Session.mk email name endsAt true EventMode.normal),
             mapSet st email
               (Session.mk email name endsAt true EventMode.normal))) ∧
      (∀ s, mapGet st email = some s →
        Persistent.createSession email name endsAt st
          = (Except.error "duplicate key", st)) := by
  intro st email name endsAt
  refine ⟨rfl, ?_, ?_, ?_, ?_⟩
  · simp [Ephemeral.createSession, mapGet_mapSet]
  · intro e2 he2
    have hne : ¬ email = e2 := fun h => he2 h.symm
    simp [Ephemeral.createSession, mapGet_mapSet, hne]
  · intro hn
    simp [Persistent.createSession, hn]
  · intro s hs
    simp [Persistent.createSession, hs]

/-- Witness for C6 amended: creating a session in an empty ephemeral store
stores the normal-mode active record, and a persistent duplicate insert on a
one-record store fails and changes nothing. -/
theorem c6_create_session_amended_witness :
    (mapGet (Ephemeral.createSession "a@b.co" "N" 100 []).2 "a@b.co"
      = some (Session.mk "a@b.co" "N" 100 true EventMode.normal)) ∧
    ("c@d.co" ≠ "a@b.co") ∧
    (mapGet [("a@b.co", Session.mk "a@b.co" "Old" 5 false EventMode.chaos)]
       "a@b.co" = some (Session.mk "a@b.co" "Old" 5 false EventMode.chaos)) ∧
    Persistent.createSession "a@b.co" "N" 100
        [("a@b.co", Session.mk "a@b.co" "Old" 5 false EventMode.chaos)]
      = (Except.error "duplicate key",
         [("a@b.co", Session.mk "a@b.co" "Old" 5 false EventMode.chaos)]) := by
  refine ⟨(c6_create_session_amended [] "a@b.co" "N" 100).2.1, by decide,
    by decide, ?_⟩
  exact (c6_create_session_amended
    [("a@b.co", Session.mk "a@b.co" "Old" 5 false EventMode.chaos)]
    "a@b.co" "N" 100).2.2.2.2
    (Session.mk "a@b.co" "Old" 5 false EventMode.chaos) (by decide)

/-- C9: in the ephemeral store, stopSession on a tracked session appends an
uncancellable deletion timer due 300000 ms (5 minutes) later; neither
resumeSession nor createEvalSession touches the timer queue, so when that
timer fires after an intervening resume (or recreation) of the same email,
the then-active session is deleted from the map without any further stop. -/
theorem c9_stop_timer_uncancelled :
    ∀ (st : EphState) (now : Nat) (email : String) (s : Session),
      mapGet st.sessions email = some s →
      ((now + 300000, email) ∈ (Ephemeral.stopSession now email st).timers) ∧
      (∀ now2 durationMs,
        (∃ s1,
          (Ephemeral.resumeSession now2 email durationMs
            (Ephemeral.stopSession now email st).sessions).1
            = Except.ok s1 ∧ s1.isActive = true) ∧
        mapGet (Ephemeral.fireTimer (now + 300000, email)
          { sessions := (Ephemeral.resumeSession now2 email durationMs
              (Ephemeral.stopSession now email st).sessions).2,
            timers := (Ephemeral.stopSession now email st).timers }).sessions
          email = none) ∧
      (∀ now3 durationMs mode,
        mapGet (Ephemeral.createEvalSession now3 email durationMs mode
            (Ephemeral.stopSession now email st).sessions).2 email
          = some (Ephemeral.createEvalSession now3 email durationMs mode
              (Ephemeral.stopSession now email st).sessions).1 ∧
        (Ephemeral.createEvalSession now3 email durationMs mode
            (Ephemeral.stopSession now email st).sessions).1.isActive = true ∧
        mapGet (Ephemeral.fireTimer (now + 300000, email)
          { sessions := (Ephemeral.createEvalSession now3 email durationMs mode
              (Ephemeral.stopSession now email st).sessions).2,
            timers := (Ephemeral.stopSession now email st).timers }).sessions
          email = none) := by
  intro st now email s hs
  have h5 : (5 * 60 * 1000 : Nat) = 300000 := by norm_num
  have hstop : Ephemeral.stopSession now email st
      = { sessions := mapSet st.sessions email { s with isActive := false },
          timers := st.timers ++ [(now + 300000, email)] } := by
    simp [Ephemeral.stopSession, hs, h5]
  refine ⟨?_, ?_, ?_⟩
  · rw [hstop]
    simp
  · intro now2 durationMs
    have hs1 : mapGet (Ephemeral.stopSession now email st).sessions email
        = some { s with isActive := false } := by
      rw [hstop]
      simp [mapGet_mapSet]
    constructor
    · refine ⟨{ s with isActive := true, endsAt := now2 + durationMs }, ?_, rfl⟩
      simp [Ephemeral.resumeSession, hs1]
    · simp [Ephemeral.fireTimer, mapGet_mapDelete]
  · intro now3 durationMs mode
    refine ⟨?_, rfl, ?_⟩
    · simp [Ephemeral.createEvalSession, mapGet_mapSet]
    · simp [Ephemeral.fireTimer, mapGet_mapDelete]

/-- Witness for C9: one stopped session, resumed for a minute, is deleted by
the already-pending timer. -/
theorem c9_stop_timer_uncancelled_witness :
    (mapGet [("a@b.co", Session.mk "a@b.co" "N" 900 true EventMode.normal)]
       "a@b.co" = some (Session.mk "a@b.co" "N" 900 true EventMode.normal)) ∧
    ((1000 + 300000, "a@b.co") ∈ (Ephemeral.stopSession 1000 "a@b.co"
        ⟨[("a@b.co", Session.mk "a@b.co" "N" 900 true EventMode.normal)],
         []⟩).timers) ∧
    mapGet (Ephemeral.fireTimer (1000 + 300000, "a@b.co")
      { sessions := (Ephemeral.resumeSession 2000 "a@b.co" 60000
          (Ephemeral.stopSession 1000 "a@b.co"
            ⟨[("a@b.co", Session.mk "a@b.co" "N" 900 true EventMode.normal)],
             []⟩).sessions).2,
        timers := (Ephemeral.stopSession 1000 "a@b.co"
          ⟨[("a@b.co", Session.mk "a@b.co" "N" 900 true EventMode.normal)],
           []⟩).timers }).sessions "a@b.co" = none := by
  have h := c9_stop_timer_uncancelled
    ⟨[("a@b.co", Session.mk "a@b.co" "N" 900 true EventMode.normal)], []⟩
    1000 "a@b.co" (Session.mk "a@b.co" "N" 900 true EventMode.normal)
    (by decide)
  exact ⟨by decide, h.1, (h.2.1 2000 60000).2⟩

namespace EventEngine

/-- src/eventEngine.ts intervalForMode.  The Math.random() draw that only the
chaos arm consumes is the explicit argument r, a fresh uniform draw from
[0,1) on every call, read as an exact rational; the source's
`Math.random() > 0.7 ? 50 : 1500` becomes the comparison 7/10 < r.  The
default arm covers normal, country_focus and any other input. -/
def intervalForMode (mode : EventMode) (r : ℚ) : Nat :=
  match mode with
  | EventMode.high_traffic => 50
  | EventMode.payment_spike => 300
  | EventMode.chaos => if 7 / 10 < r then 50 else 1500
  | _ => 1000

end EventEngine

/-- C5: intervalForMode returns exactly 50 for high_traffic, 300 for
payment_spike, and 1000 for normal and country_focus (the modes falling to
the default arm), for every draw; for chaos the result is 50 or 1500, and the
draws in [0,1) that yield 50 are exactly the interval (7/10, 1), whose length
1 - 7/10 is the probability 3/10 = 0.3 under the uniform per-call draw. -/
theorem c5_interval_for_mode :
    (∀ r : ℚ, EventEngine.intervalForMode EventMode.high_traffic r = 50) ∧
    (∀ r : ℚ, EventEngine.intervalForMode EventMode.payment_spike r = 300) ∧
    (∀ r : ℚ, EventEngine.intervalForMode EventMode.normal r = 1000) ∧
    (∀ r : ℚ, EventEngine.intervalForMode EventMode.country_focus r = 1000) ∧
    (∀ r : ℚ, EventEngine.intervalForMode EventMode.chaos r = 50 ∨
      EventEngine.intervalForMode EventMode.chaos r = 1500) ∧
    ({r : ℚ | 0 ≤ r ∧ r < 1 ∧
        EventEngine.intervalForMode EventMode.chaos r = 50}
      = Set.Ioo (7 / 10 : ℚ) 1) ∧
    ((1 : ℚ) - 7 / 10 = 3 / 10) := by
  refine ⟨fun r => rfl, fun r => rfl, fun r => rfl, fun r => rfl, ?_, ?_, by norm_num⟩
  · intro r
    by_cases h : (7 / 10 : ℚ) < r
    · exact Or.inl (by simp [EventEngine.intervalForMode, h])
    · exact Or.inr (by simp [EventEngine.intervalForMode, h])
  · ext r
    simp only [Set.mem_setOf_eq, Set.mem_Ioo, EventEngine.intervalForMode]
    constructor
    · rintro ⟨h0, h1, h50⟩
      refine ⟨?_, h1⟩
      by_contra h
      simp [h] at h50
    · rintro ⟨h7, h1⟩
      refine ⟨le_trans (by norm_num) (le_of_lt h7), h1, by simp [h7]⟩

/-- The denominator of a Math.random() draw: the doubles returned are the
dyadic rationals k / 2^53 with 0 ≤ k < 2^53. -/
def randomDenom : Nat := 2 ^ 53

/-- Base-36 fraction digits of the dyadic rational k / 2^53, as produced by
Number.prototype.toString(36): repeatedly multiply the remainder by 36,
emitting the integer part, until the remainder is zero.  The exact expansion
of k / 2^53 always terminates within 27 digits (k * 36^27 is divisible by
2^53), so fuel 27 computes it in full.  V8's implementation may round the
expansion shorter still; that only removes trailing digits and is immaterial
to the claims settled below (their concrete draws have exact short
expansions). -/
def digits36Aux : Nat → Nat → List Nat
  | 0, _ => []
  | fuel + 1, k =>
    if k = 0 then []
    else k * 36 / randomDenom :: digits36Aux fuel (k * 36 % randomDenom)

/-- The fraction digits of (k / 2^53).toString(36); for k = 0 the string is
just "0" with no fraction digits at all. -/
def toString36FracDigits (k : Nat) : List Nat :=
  digits36Aux 27 k

/-- Digit-to-character table of Number.prototype.toString(36): 0-9 then
a-z. -/
def digitChar36 (d : Nat) : Char :=
  if d < 10 then Char.ofNat (48 + d) else Char.ofNat (87 + d)

/-- src/utils.ts generateId: template `<prefix>_<...>` where `<...>` is
Math.random().toString(36).slice(2, 10), i.e. the first up-to-8 fraction
digits of the draw's base-36 rendering (the slice skips the leading "0.";
for the draw 0 the rendering is "0" and the slice is empty).  The draw is
passed as the numerator k of the double k / 2^53. -/
def generateId (pfx : String) (k : Nat) : String :=
  pfx ++ "_" ++ String.mk (((toString36FracDigits k).take 8).map digitChar36)

/-- The eventId field of generatePayment in src/eventEngine.ts: generateId()
at its default prefix "evt". -/
def paymentEventId (k : Nat) : String :=
  generateId "evt" k

/-- A base-36 digit character: 0-9 or a-z. -/
def IsBase36Char (c : Char) : Prop :=
  ('0' ≤ c ∧ c ≤ '9') ∨ ('a' ≤ c ∧ c ≤ 'z')

theorem digits36Aux_length_le (fuel : Nat) :
    ∀ k, (digits36Aux fuel k).length ≤ fuel := by
  induction fuel with
  | zero => intro k; simp [digits36Aux]
  | succ f ih =>
    intro k
    by_cases hk : k = 0
    · simp [digits36Aux, hk]
    · simpa [digits36Aux, hk, Nat.succ_le_succ_iff] using ih (k * 36 % randomDenom)

theorem digits36Aux_digit_lt (fuel : Nat) :
    ∀ k, k < randomDenom → ∀ d ∈ digits36Aux fuel k, d < 36 := by
  induction fuel with
  | zero => intro k _ d hd; simp [digits36Aux] at hd
  | succ f ih =>
    intro k hk d hd
    by_cases h0 : k = 0
    · simp [digits36Aux, h0] at hd
    · simp only [digits36Aux, h0, if_false, List.mem_cons] at hd
      rcases hd with hd | hd
      · subst hd
        exact Nat.div_lt_of_lt_mul
          (mul_lt_mul_of_pos_right hk (by norm_num))
      · exact ih _ (Nat.mod_lt _ (by norm_num [randomDenom])) d hd

theorem digits36Aux_length_gt (fuel : Nat) :
    ∀ j k, j < fuel → k * 36 ^ j % randomDenom ≠ 0 →
      j < (digits36Aux fuel k).length := by
  induction fuel with
  | zero => intro j k hj _; omega
  | succ f ih =>
    intro j k hj hnz
    have hk : k ≠ 0 := by
      intro h
      exact hnz (by simp [h])
    cases j with
    | zero => simp [digits36Aux, hk]
    | succ j0 =>
      have hrec : (k * 36 % randomDenom) * 36 ^ j0 % randomDenom ≠ 0 := by
        have heq : (k * 36 % randomDenom) * 36 ^ j0 % randomDenom
            = k * 36 ^ (j0 + 1) % randomDenom := by
          conv_rhs => rw [pow_succ, show k * (36 ^ j0 * 36) = k * 36 * 36 ^ j0 by ring]
          rw [Nat.mul_mod, Nat.mod_mod_of_dvd _ dvd_rfl, ← Nat.mul_mod]
        rw [heq]
        exact hnz
      have := ih j0 (k * 36 % randomDenom) (by omega) hrec
      simp only [digits36Aux, hk, if_false, List.length_cons]
      omega

theorem digitChar36_is_base36 (d : Nat) (hd : d < 36) :
    IsBase36Char (digitChar36 d) := by
  interval_cases d <;> simp only [IsBase36Char, digitChar36] <;> decide

/-- C7 counterexample: at the random draw 1/2 (numerator 2^52), whose base-36
expansion is the single digit "i", the generated payment identifier is
"evt_i" — 1 character after the underscore instead of the claimed 8 (a
12-character identifier). -/
theorem c7_event_id_counterexample :
    paymentEventId (2 ^ 52) = "evt_i" ∧
    (paymentEventId (2 ^ 52)).length ≠ 12 := by
  constructor
  · decide
  · decide

/-- C7 amended: for every random draw k / 2^53 the generated identifier is
the prefix evt, an underscore, and AT MOST 8 base-36 characters — exactly 8
whenever the draw's base-36 expansion does not terminate within 7 digits,
but fewer for the draws whose expansion ends early. -/
theorem c7_event_id_amended :
    ∀ k : Nat, k < randomDenom →
      ∃ tail : List Char,
        (paymentEventId k).data = "evt_".data ++ tail ∧
        tail.length ≤ 8 ∧
        (∀ c ∈ tail, IsBase36Char c) ∧
        (k * 36 ^ 7 % randomDenom ≠ 0 → tail.length = 8) := by
  intro k hk
  refine ⟨((toString36FracDigits k).take 8).map digitChar36, ?_, ?_, ?_, ?_⟩
  · show ("evt" ++ "_" ++ String.mk _ : String).data = _
    rw [String.data_append, String.data_append]
    show ("evt".data ++ ("_".data ++ _) : List Char) = _
    rw [← List.append_assoc]
    rfl
  · simp only [List.length_map, List.length_take]
    exact min_le_left _ _
  · intro c hc
    simp only [List.mem_map] at hc
    obtain ⟨d, hd, rfl⟩ := hc
    exact digitChar36_is_base36 d
      (digits36Aux_digit_lt 27 k hk d (List.take_subset 8 _ hd))
  · intro hnz
    have h7 : 7 < (digits36Aux 27 k).length :=
      digits36Aux_length_gt 27 7 k (by norm_num) hnz
    simp only [List.length_map, List.length_take, toString36FracDigits]
    omega

/-- Witness for C7 amended at the draw 1 / 2^53, whose first 8 base-36
fraction digits are all zero (so the identifier is evt_00000000, a full
8-character tail). -/
theorem c7_event_id_amended_witness :
    (1 < randomDenom) ∧
    ∃ tail : List Char,
      (paymentEventId 1).data = "evt_".data ++ tail ∧
      tail.length ≤ 8 ∧
      (∀ c ∈ tail, IsBase36Char c) ∧
      (1 * 36 ^ 7 % randomDenom ≠ 0 → tail.length = 8) := by
  exact ⟨by norm_num [randomDenom], c7_event_id_amended 1 (by norm_num [randomDenom])⟩

/-- One character of the JS regex class [^\s@]: neither whitespace nor @. -/
def emailChar (c : Char) : Bool :=
  !c.isWhitespace && c != '@'

/-- src/index.ts isValidEmail, the regex test
^[^\s@]+@[^\s@]+\.[^\s@]+$ : a nonempty local part free of whitespace and @,
a single @, and a domain free of whitespace and @ that carries a dot with at
least one character on each side.  The maximal emailChar prefix is the only
candidate local part, since the regex's local part cannot contain @ or
whitespace either, so the scan below decides the regex exactly. -/
def isValidEmail (s : String) : Bool :=
  match s.data.span emailChar with
  | (lcl, rest) =>
    match rest with
    | '@' :: domain =>
      !lcl.isEmpty && domain.all emailChar &&
        ((domain.drop 1).dropLast.contains '.')
    | _ => false

/-- JS String.prototype.toLowerCase on the ASCII range (the only characters
the lowercased regex literals of the source can match). -/
def jsLowerChar (c : Char) : Char :=
  if 'A' ≤ c ∧ c ≤ 'Z' then Char.ofNat (c.toNat + 32) else c

/-- toLowerCase of a whole string. -/
def stringToLower (s : String) : String :=
  String.mk (s.data.map jsLowerChar)

/-- Strip an exact prefix from a character list, or fail. -/
def dropPfx : List Char → List Char → Option (List Char)
  | [], cs => some cs
  | _ :: _, [] => none
  | p :: ps, c :: cs => if p = c then dropPfx ps cs else none

/-- One character of the class [a-zA-Z0-9_-] after lowercasing. -/
def githubUserChar (c : Char) : Bool :=
  ('a' ≤ c && c ≤ 'z') || ('0' ≤ c && c ≤ '9') || c == '_' || c == '-'

/-- The rest of the username followed by the regex's optional trailing
slash. -/
def githubUserTail : List Char → Bool
  | [] => true
  | ['/'] => true
  | c :: cs => githubUserChar c && githubUserTail cs

/-- src/index.ts isValidGithubUrl, the case-insensitive regex test
^https?:\/\/(www\.)?github\.com\/[a-zA-Z0-9_-]+\/?$ (the optional www. can
never backtrack since w differs from g). -/
def isValidGithubUrl (s : String) : Bool :=
  let cs := (stringToLower s).data
  match (dropPfx "https://".data cs).orElse (fun _ => dropPfx "http://".data cs) with
  | none => false
  | some rest =>
    let rest1 := (dropPfx "www.".data rest).getD rest
    match dropPfx "github.com/".data rest1 with
    | none => false
    | some user =>
      match user with
      | [] => false
      | c :: cs2 => githubUserChar c && githubUserTail cs2

/-- Assignment status: the only two values the system ever writes. -/
inductive AssignmentStatus where
  | active
  | completed
deriving DecidableEq, Repr

/-- A document of the assignments collection. -/
structure Assignment where
  email : String
  startedAt : Nat
  endsAt : Nat
  status : AssignmentStatus
deriving DecidableEq, Repr

/-- A document of the candidates collection. -/
structure Candidate where
  name : String
  email : String
  github : String
  createdAt : Nat
deriving DecidableEq, Repr

/-- A document of the eligible_candidates collection (persistent variant). -/
structure EligibleCandidate where
  email : String
  name : Option String
  addedAt : Nat
  addedBy : String
deriving DecidableEq, Repr

/-- The MongoDB payport database as touched by the /start and
/admin/candidates handlers. -/
structure Db where
  candidates : List Candidate
  assignments : List Assignment
  eligibleCandidates : List EligibleCandidate
deriving DecidableEq, Repr

/-- findOne on the assignments collection filtered by exact email. -/
def findAssignment (db : Db) (email : String) : Option Assignment :=
  db.assignments.find? (fun a => a.email == email)

/-- findOne on the eligible_candidates collection by normalized email. -/
def findEligible (db : Db) (email : String) : Option EligibleCandidate :=
  db.eligibleCandidates.find? (fun c => c.email == email)

/-- src/index.ts: const ASSIGNMENT_DURATION = 8 * 60 * 60 * 1000. -/
def ASSIGNMENT_DURATION : Nat := 8 * 60 * 60 * 1000

/-- The possible responses of POST /start. -/
inductive StartOutcome where
  | missingFields
  | invalidEmailFormat
  | invalidGithub
  | notEligible
  | alreadyActive
  | alreadyUsed
  | started (endsAt : Nat)
deriving DecidableEq, Repr

/-- HTTP status code of each /start response. -/
def startStatus : StartOutcome → Nat
  | StartOutcome.missingFields => 400
  | StartOutcome.invalidEmailFormat => 400
  | StartOutcome.invalidGithub => 400
  | StartOutcome.notEligible => 403
  | StartOutcome.alreadyActive => 400
  | StartOutcome.alreadyUsed => 400
  | StartOutcome.started _ => 200

/-- Error text of each failing /start response, verbatim from the source. -/
def startError : StartOutcome → Option String
  | StartOutcome.missingFields => some "Missing name, email, or github"
  | StartOutcome.invalidEmailFormat => some "Invalid email format"
  | StartOutcome.invalidGithub =>
    some "Invalid GitHub profile URL. Expected format: https://github.com/username"
  | StartOutcome.notEligible =>
    some "You are not authorized to take this assignment. Please contact the administrator if you believe this is an error."
  | StartOutcome.alreadyActive => some "Assignment already in progress"
  | StartOutcome.alreadyUsed =>
    some "Email already used. One attempt per candidate."
  | StartOutcome.started _ => none

/-- POST /start of the ephemeral variant of src/index.ts (the session-store
call on success is modelled separately by Ephemeral.createSession): validate
presence and shape of the fields, reject any email that already has an
assignment record of any status — distinguishing an active record from any
other — and otherwise insert the candidate and the active 8-hour
assignment. -/
def startHandlerE (now : Nat) (name? email? github? : Option String)
    (db : Db) : StartOutcome × Db :=
  match name?, email?, github? with
  | some name, some email, some github =>
    if name == "" || email == "" || github == "" then
      (StartOutcome.missingFields, db)
    else if !isValidEmail email then (StartOutcome.invalidEmailFormat, db)
    else if !isValidGithubUrl github then (StartOutcome.invalidGithub, db)
    else
      match findAssignment db email with
      | some a =>
        if a.status = AssignmentStatus.active then
          (StartOutcome.alreadyActive, db)
        else
          (StartOutcome.alreadyUsed, db)
      | none =>
        let endsAt := now + ASSIGNMENT_DURATION
        (StartOutcome.started endsAt,
         { db with
            candidates := db.candidates ++ [⟨name, email, github, now⟩],
            assignments :=
              db.assignments ++ [⟨email, now, endsAt, AssignmentStatus.active⟩] })
  | _, _, _ => (StartOutcome.missingFields, db)

/-- POST /start of the persistent variant: identical to the ephemeral
handler except that, before the duplicate-assignment check, the lowercased
email must appear in the eligible_candidates allow-list (403 otherwise). -/
def startHandlerP (now : Nat) (name? email? github? : Option String)
    (db : Db) : StartOutcome × Db :=
  match name?, email?, github? with
  | some name, some email, some github =>
    if name == "" || email == "" || github == "" then
      (StartOutcome.missingFields, db)
    else if !isValidEmail email then (StartOutcome.invalidEmailFormat, db)
    else if !isValidGithubUrl github then (StartOutcome.invalidGithub, db)
    else if (findEligible db (stringToLower email)).isNone then
      (StartOutcome.notEligible, db)
    else
      match findAssignment db email with
      | some a =>
        if a.status = AssignmentStatus.active then
          (StartOutcome.alreadyActive, db)
        else
          (StartOutcome.alreadyUsed, db)
      | none =>
        let endsAt := now + ASSIGNMENT_DURATION
        (StartOutcome.started endsAt,
         { db with
            candidates := db.candidates ++ [⟨name, email, github, now⟩],
            assignments :=
              db.assignments ++ [⟨email, now, endsAt, AssignmentStatus.active⟩] })
  | _, _, _ => (StartOutcome.missingFields, db)

/-- Number of assignment records stored for an email. -/
def assignCount (db : Db) (email : String) : Nat :=
  (db.assignments.filter (fun a => a.email == email)).length

/-- The Assignment invariant of the spec: at most one record per email,
ever. -/
def AtMostOneAssignment (db : Db) : Prop :=
  ∀ e, assignCount db e ≤ 1

theorem findAssignment_none_count (db : Db) (em : String)
    (h : findAssignment db em = none) : assignCount db em = 0 := by
  unfold findAssignment at h
  unfold assignCount
  rw [List.length_eq_zero]
  rw [List.find?_eq_none] at h
  rw [List.filter_eq_nil_iff]
  exact h

theorem startHandlerE_db_cases (now : Nat) (n? e? g? : Option String)
    (db : Db) :
    (startHandlerE now n? e? g? db).2 = db ∨
    ∃ name email github,
      n? = some name ∧ e? = some email ∧ g? = some github ∧
      findAssignment db email = none ∧
      (startHandlerE now n? e? g? db).2
        = { db with
            candidates := db.candidates ++ [⟨name, email, github, now⟩],
            assignments := db.assignments
              ++ [⟨email, now, now + ASSIGNMENT_DURATION,
                   AssignmentStatus.active⟩] } := by
  cases n? with
  | none => exact Or.inl rfl
  | some name =>
  cases e? with
  | none => exact Or.inl rfl
  | some email =>
  cases g? with
  | none => exact Or.inl rfl
  | some github =>
  simp only [startHandlerE]
  split_ifs with h1 h2 h3
  · exact Or.inl rfl
  · exact Or.inl rfl
  · exact Or.inl rfl
  · cases hf : findAssignment db email with
    | some a =>
      simp only [hf]
      split_ifs <;> exact Or.inl rfl
    | none =>
      simp only [hf]
      exact Or.inr ⟨name, email, github, rfl, rfl, rfl, hf, rfl⟩

theorem startHandlerP_db_cases (now : Nat) (n? e? g? : Option String)
    (db : Db) :
    (startHandlerP now n? e? g? db).2 = db ∨
    ∃ name email github,
      n? = some name ∧ e? = some email ∧ g? = some github ∧
      findAssignment db email = none ∧
      (startHandlerP now n? e? g? db).2
        = { db with
            candidates := db.candidates ++ [⟨name, email, github, now⟩],
            assignments := db.assignments
              ++ [⟨email, now, now + ASSIGNMENT_DURATION,
                   AssignmentStatus.active⟩] } := by
  cases n? with
  | none => exact Or.inl rfl
  | some name =>
  cases e? with
  | none => exact Or.inl rfl
  | some email =>
  cases g? with
  | none => exact Or.inl rfl
  | some github =>
  simp only [startHandlerP]
  split_ifs with h1 h2 h3 h4
  · exact Or.inl rfl
  · exact Or.inl rfl
  · exact Or.inl rfl
  · exact Or.inl rfl
  · cases hf : findAssignment db email with
    | some a =>
      simp only [hf]
      split_ifs <;> exact Or.inl rfl
    | none =>
      simp only [hf]
      exact Or.inr ⟨name, email, github, rfl, rfl, rfl, hf, rfl⟩

theorem atMostOne_after_insert (db : Db) (name email github : String)
    (now : Nat) (hf : findAssignment db email = none)
    (hinv : AtMostOneAssignment db) :
    AtMostOneAssignment
      { db with
        candidates := db.candidates ++ [⟨name, email, github, now⟩],
        assignments := db.assignments
          ++ [⟨email, now, now + ASSIGNMENT_DURATION,
               AssignmentStatus.active⟩] } := by
  intro e
  unfold AtMostOneAssignment assignCount at *
  simp only [List.filter_append, List.length_append]
  by_cases he : email = e
  · subst he
    have h0 : (db.assignments.filter (fun a => a.email == email)).length = 0 :=
      findAssignment_none_count db email hf
    simp only [List.filter_cons, List.filter_nil]
    simp only [show ((⟨email, now, now + ASSIGNMENT_DURATION,
        AssignmentStatus.active⟩ : Assignment).email == email) = true by
      simp]
    simp [h0]
  · simp only [List.filter_cons, List.filter_nil]
    simp only [show ((⟨email, now, now + ASSIGNMENT_DURATION,
        AssignmentStatus.active⟩ : Assignment).email == e) = false by
      simp [he]]
    simpa using hinv e

/-- C1: POST /start (both variants) creates an assignment only when no
assignment record of any status exists for that exact email; a well-formed
request (and, in the persistent variant, an allow-listed email) hitting an
existing active record fails with status 400 and the text "Assignment
already in progress", while hitting a record of any other status fails with
status 400 and the distinct text "Email already used. One attempt per
candidate."; consequently every request preserves the at-most-one-assignment-
per-email invariant in both variants. -/
theorem c1_start_one_attempt :
    ∀ (now : Nat) (nm em gh : String) (db : Db) (a : Assignment) (e : Nat),
      ((startHandlerE now (some nm) (some em) (some gh) db).1
          = StartOutcome.started e → findAssignment db em = none) ∧
      ((startHandlerP now (some nm) (some em) (some gh) db).1
          = StartOutcome.started e → findAssignment db em = none) ∧
      (nm ≠ "" → isValidEmail em = true → isValidGithubUrl gh = true →
        findAssignment db em = some a →
        a.status = AssignmentStatus.active →
        startHandlerE now (some nm) (some em) (some gh) db
          = (StartOutcome.alreadyActive, db)) ∧
      (nm ≠ "" → isValidEmail em = true → isValidGithubUrl gh = true →
        findAssignment db em = some a →
        a.status ≠ AssignmentStatus.active →
        startHandlerE now (some nm) (some em) (some gh) db
          = (StartOutcome.alreadyUsed, db)) ∧
      (nm ≠ "" → isValidEmail em = true → isValidGithubUrl gh = true →
        (findEligible db (stringToLower em)).isSome = true →
        findAssignment db em = some a →
        a.status = AssignmentStatus.active →
        startHandlerP now (some nm) (some em) (some gh) db
          = (StartOutcome.alreadyActive, db)) ∧
      (nm ≠ "" → isValidEmail em = true → isValidGithubUrl gh = true →
        (findEligible db (stringToLower em)).isSome = true →
        findAssignment db em = some a →
        a.status ≠ AssignmentStatus.active →
        startHandlerP now (some nm) (some em) (some gh) db
          = (StartOutcome.alreadyUsed, db)) ∧
      (startStatus StartOutcome.alreadyActive = 400 ∧
       startStatus StartOutcome.alreadyUsed = 400 ∧
       startError StartOutcome.alreadyActive
         = some "Assignment already in progress" ∧
       startError StartOutcome.alreadyUsed
         = some "Email already used. One attempt per candidate." ∧
       startError StartOutcome.alreadyActive
         ≠ startError StartOutcome.alreadyUsed) ∧
      (∀ name? email? github?, AtMostOneAssignment db →
        AtMostOneAssignment (startHandlerE now name? email? github? db).2 ∧
        AtMostOneAssignment (startHandlerP now name? email? github? db).2) := by
  intro now nm em gh db a e
  have hemne : isValidEmail em = true → em ≠ "" := by
    intro hv h
    rw [h] at hv
    exact absurd hv (by decide)
  have hghne : isValidGithubUrl gh = true → gh ≠ "" := by
    intro hv h
    rw [h] at hv
    exact absurd hv (by decide)
  refine ⟨?_, ?_, ?_, ?_, ?_, ?_, ?_, ?_⟩
  · intro hst
    simp only [startHandlerE] at hst
    split_ifs at hst with h1 h2 h3
    cases hf : findAssignment db em with
    | some a2 =>
      exfalso
      rw [hf] at hst
      by_cases hsA : a2.status = AssignmentStatus.active
      · simp [hsA] at hst
      · simp [hsA] at hst
    | none => rfl
  · intro hst
    simp only [startHandlerP] at hst
    split_ifs at hst with h1 h2 h3 h4
    cases hf : findAssignment db em with
    | some a2 =>
      exfalso
      rw [hf] at hst
      by_cases hsA : a2.status = AssignmentStatus.active
      · simp [hsA] at hst
      · simp [hsA] at hst
    | none => rfl
  · intro hnm hve hvg hf hs
    simp [startHandlerE, hnm, hemne hve, hghne hvg, hve, hvg, hf, hs]
  · intro hnm hve hvg hf hs
    simp [startHandlerE, hnm, hemne hve, hghne hvg, hve, hvg, hf, hs]
  · intro hnm hve hvg hel hf hs
    have helne : ¬ findEligible db (stringToLower em) = none := by
      intro h
      rw [h] at hel
      exact absurd hel (by decide)
    simp [startHandlerP, hnm, hemne hve, hghne hvg, hve, hvg,
      Option.isNone_iff_eq_none, helne, hf, hs]
  · intro hnm hve hvg hel hf hs
    have helne : ¬ findEligible db (stringToLower em) = none := by
      intro h
      rw [h] at hel
      exact absurd hel (by decide)
    simp [startHandlerP, hnm, hemne hve, hghne hvg, hve, hvg,
      Option.isNone_iff_eq_none, helne, hf, hs]
  · exact ⟨rfl, rfl, rfl, rfl, by decide⟩
  · intro name? email? github? hinv
    constructor
    · rcases startHandlerE_db_cases now name? email? github? db with
        h | ⟨name, email, github, _, _, _, hf, h⟩
      · rw [h]; exact hinv
      · rw [h]; exact atMostOne_after_insert db name email github now hf hinv
    · rcases startHandlerP_db_cases now name? email? github? db with
        h | ⟨name, email, github, _, _, _, hf, h⟩
      · rw [h]; exact hinv
      · rw [h]; exact atMostOne_after_insert db name email github now hf hinv

/-- Witness for C1: a well-formed request for an email whose assignment is
still active is rejected with the already-in-progress conflict and an
unchanged database. -/
theorem c1_start_one_attempt_witness :
    (("N" : String) ≠ "") ∧
    isValidEmail "a@b.co" = true ∧
    isValidGithubUrl "https://github.com/user" = true ∧
    findAssignment
        (Db.mk [] [Assignment.mk "a@b.co" 0 100 AssignmentStatus.active] [])
        "a@b.co"
      = some (Assignment.mk "a@b.co" 0 100 AssignmentStatus.active) ∧
    startHandlerE 50 (some "N") (some "a@b.co")
        (some "https://github.com/user")
        (Db.mk [] [Assignment.mk "a@b.co" 0 100 AssignmentStatus.active] [])
      = (StartOutcome.alreadyActive,
         Db.mk [] [Assignment.mk "a@b.co" 0 100 AssignmentStatus.active] []) := by
  refine ⟨by decide, by decide, by decide, by decide, ?_⟩
  exact (c1_start_one_attempt 50 "N" "a@b.co" "https://github.com/user"
    (Db.mk [] [Assignment.mk "a@b.co" 0 100 AssignmentStatus.active] [])
    (Assignment.mk "a@b.co" 0 100 AssignmentStatus.active) 0).2.2.1
    (by decide) (by decide) (by decide) (by decide) rfl

/-- The events a /events stream writes after the initial connected
handshake. -/
inductive SSEEvent where
  | connected (mode : EventMode)
  | modeChanged (mode : EventMode)
  | payment (mode : EventMode)
  | sessionEnded
deriving DecidableEq, Repr

/-- The self-rescheduling sendEvent loop of GET /events (both variants),
driven by the successive getSession results it observes, one per tick, while
the client stays connected: a missing or inactive session writes one
session_ended event and ends the response without rescheduling; otherwise a
mode different from the previous tick's writes a mode_changed event first,
then one payment event is generated and written and the next tick is
scheduled with the current mode. -/
def sseRun : List (Option Session) → EventMode → List SSEEvent
  | [], _ => []
  | read :: rest, currentMode =>
    match read with
    | none => [SSEEvent.sessionEnded]
    | some s =>
      if !s.isActive then [SSEEvent.sessionEnded]
      else
        (if s.mode ≠ currentMode then [SSEEvent.modeChanged s.mode] else [])
          ++ SSEEvent.payment s.mode :: sseRun rest s.mode

theorem sseRun_cons_active (s : Session) (reads : List (Option Session))
    (m0 : EventMode) (hs : s.isActive = true) :
    sseRun (some s :: reads) m0
      = (if s.mode ≠ m0 then [SSEEvent.modeChanged s.mode] else [])
        ++ SSEEvent.payment s.mode :: sseRun reads s.mode := by
  simp [sseRun, hs]

/-- C3: when the backing session disappears or goes inactive at some tick of
an open stream, the loop writes exactly one session_ended event at that tick
— after the events of the preceding healthy ticks and before nothing — and
terminates, so no payment event is written at that tick or ever after on
that stream. -/
theorem c3_session_ended_once :
    ∀ (good : List Session) (bad : Option Session)
      (rest : List (Option Session)) (m0 : EventMode),
      (∀ s ∈ good, s.isActive = true) →
      (∀ s, bad = some s → s.isActive = false) →
      ∃ pre,
        sseRun (good.map some ++ bad :: rest) m0
          = pre ++ [SSEEvent.sessionEnded] ∧
        pre = sseRun (good.map some) m0 ∧
        SSEEvent.sessionEnded ∉ pre := by
  intro good
  induction good with
  | nil =>
    intro bad rest m0 _ hbad
    refine ⟨[], ?_, rfl, by simp⟩
    cases bad with
    | none => simp [sseRun]
    | some s =>
      have hs := hbad s rfl
      simp [sseRun, hs]
  | cons g gs ih =>
    intro bad rest m0 hgood hbad
    have hg : g.isActive = true := hgood g (by simp)
    obtain ⟨pre, hrun, hpre, hnot⟩ :=
      ih bad rest g.mode (fun s hs => hgood s (by simp [hs])) hbad
    refine ⟨(if g.mode ≠ m0 then [SSEEvent.modeChanged g.mode] else [])
        ++ SSEEvent.payment g.mode :: pre, ?_, ?_, ?_⟩
    · rw [List.map_cons, List.cons_append, sseRun_cons_active g _ m0 hg, hrun]
      simp
    · rw [List.map_cons, sseRun_cons_active g _ m0 hg, hpre]
    · intro hmem
      simp only [List.mem_append, List.mem_cons] at hmem
      rcases hmem with hmem | hmem | hmem
      · by_cases hm : g.mode ≠ m0
        · simp [hm] at hmem
        · simp [hm] at hmem
      · cases hmem
      · exact hnot hmem

/-- Witness for C3: one healthy normal-mode tick followed by a read of an
inactive session yields one payment then the single terminal
session_ended. -/
theorem c3_session_ended_once_witness :
    ((∀ s ∈ [Session.mk "a@b.co" "N" 900 true EventMode.normal],
      s.isActive = true) ∧
     (∀ s, (some (Session.mk "a@b.co" "N" 5 false EventMode.normal)
        = some s) → s.isActive = false)) ∧
    ∃ pre,
      sseRun ([Session.mk "a@b.co" "N" 900 true EventMode.normal].map some
          ++ some (Session.mk "a@b.co" "N" 5 false EventMode.normal) :: [])
        EventMode.normal
        = pre ++ [SSEEvent.sessionEnded] ∧
      pre = sseRun
        ([Session.mk "a@b.co" "N" 900 true EventMode.normal].map some)
        EventMode.normal ∧
      SSEEvent.sessionEnded ∉ pre := by
  constructor
  · constructor
    · intro s hs
      simp only [List.mem_singleton] at hs
      rw [hs]
    · intro s hs
      cases hs
      rfl
  · exact c3_session_ended_once
      [Session.mk "a@b.co" "N" 900 true EventMode.normal]
      (some (Session.mk "a@b.co" "N" 5 false EventMode.normal)) [] EventMode.normal
      (by intro s hs; simp only [List.mem_singleton] at hs; rw [hs])
      (by intro s hs; cases hs; rfl)

/-- The email list POST /admin/candidates derives from the body:
`emails || (email ? [email] : [])`. -/
def requestEmailList (email? : Option String)
    (emails? : Option (List String)) : List String :=
  match emails? with
  | some l => l
  | none =>
    match email? with
    | some e => if e == "" then [] else [e]
    | none => []

/-- The possible responses of POST /admin/candidates. -/
inductive AddOutcome where
  | missingEmails
  | invalidEmails (invalid : List String)
  | ok (added alreadyExists : List String)
deriving DecidableEq, Repr

/-- The per-email loop of POST /admin/candidates: lowercase the address, skip
it into alreadyExists when an eligible_candidates document with that
normalized email exists, otherwise insert a fresh document (the name is kept
only for single-address requests, addedBy is the fixed "admin") and record
it under added; both result lists grow in request order. -/
def addCandidatesLoop (now : Nat) (name? : Option String) (origLen : Nat) :
    List String → List EligibleCandidate →
      List String × List String × List EligibleCandidate
  | [], store => ([], [], store)
  | e :: rest, store =>
    let norm := stringToLower e
    match store.find? (fun c => c.email == norm) with
    | some _ =>
      let r := addCandidatesLoop now name? origLen rest store
      (r.1, norm :: r.2.1, r.2.2)
    | none =>
      let newDoc : EligibleCandidate :=
        ⟨norm, if origLen = 1 then name? else none, now, "admin"⟩
      let r := addCandidatesLoop now name? origLen rest (store ++ [newDoc])
      (norm :: r.1, r.2.1, r.2.2)

/-- POST /admin/candidates: 400 when the body yields no address, 400 listing
the addresses failing isValidEmail (validated before lowercasing), and
otherwise the loop above, reporting which normalized addresses were newly
added and which already existed. -/
def addCandidatesHandler (now : Nat) (email? : Option String)
    (emails? : Option (List String)) (name? : Option String) (db : Db) :
    AddOutcome × Db :=
  let emailList := requestEmailList email? emails?
  if emailList.isEmpty then (AddOutcome.missingEmails, db)
  else
    let invalid := emailList.filter (fun e => !isValidEmail e)
    if !invalid.isEmpty then (AddOutcome.invalidEmails invalid, db)
    else
      let r := addCandidatesLoop now name? emailList.length emailList
        db.eligibleCandidates
      (AddOutcome.ok r.1 r.2.1, { db with eligibleCandidates := r.2.2 })

/-- Number of eligible_candidates documents stored for a normalized email. -/
def eligCount (store : List EligibleCandidate) (e : String) : Nat :=
  (store.filter (fun c => c.email == e)).length

theorem find_none_eligCount (store : List EligibleCandidate) (n : String)
    (h : store.find? (fun c => c.email == n) = none) : eligCount store n = 0 := by
  unfold eligCount
  rw [List.length_eq_zero, List.filter_eq_nil_iff]
  rw [List.find?_eq_none] at h
  exact h

theorem find_some_eligCount (store : List EligibleCandidate) (n : String)
    (c : EligibleCandidate)
    (h : store.find? (fun cc => cc.email == n) = some c) :
    1 ≤ eligCount store n := by
  have hmem : c ∈ store := List.mem_of_find?_eq_some h
  have hp : (c.email == n) = true := by
    have hq := List.find?_some
      (p := fun (cc : EligibleCandidate) => cc.email == n) h
    simpa using hq
  unfold eligCount
  have : c ∈ store.filter (fun cc => cc.email == n) :=
    List.mem_filter.mpr ⟨hmem, hp⟩
  exact List.length_pos.mpr (fun hnil => by simp [hnil] at this)

theorem eligCount_append_one (store : List EligibleCandidate)
    (d : EligibleCandidate) (n : String) :
    eligCount (store ++ [d]) n
      = eligCount store n + (if d.email = n then 1 else 0) := by
  unfold eligCount
  rw [List.filter_append, List.length_append]
  by_cases h : d.email = n <;> simp [h]

theorem addCandidatesLoop_spec (now : Nat) (name? : Option String)
    (origLen : Nat) (l : List String) :
    ∀ (store : List EligibleCandidate) (n : String),
      ((addCandidatesLoop now name? origLen l store).1.count n
          + (addCandidatesLoop now name? origLen l store).2.1.count n
        = (l.map stringToLower).count n) ∧
      (n ∈ (addCandidatesLoop now name? origLen l store).1 →
        eligCount store n = 0) ∧
      ((addCandidatesLoop now name? origLen l store).1.count n ≤ 1) ∧
      (eligCount (addCandidatesLoop now name? origLen l store).2.2 n
        = eligCount store n
          + (addCandidatesLoop now name? origLen l store).1.count n) ∧
      (n ∈ (addCandidatesLoop now name? origLen l store).2.1 →
        1 ≤ eligCount store n ∨
          n ∈ (addCandidatesLoop now name? origLen l store).1) := by
  induction l with
  | nil =>
    intro store n
    simp [addCandidatesLoop, eligCount]
  | cons e rest ih =>
    intro store n
    by_cases hfind :
        (store.find? (fun c => c.email == stringToLower e)).isSome
    · obtain ⟨c, hc⟩ := Option.isSome_iff_exists.mp hfind
      have hloop : addCandidatesLoop now name? origLen (e :: rest) store
          = ((addCandidatesLoop now name? origLen rest store).1,
             stringToLower e
               :: (addCandidatesLoop now name? origLen rest store).2.1,
             (addCandidatesLoop now name? origLen rest store).2.2) := by
        simp only [addCandidatesLoop, hc]
      obtain ⟨ih1, ih2, ih3, ih4, ih5⟩ := ih store n
      rw [hloop]
      refine ⟨?_, ih2, ih3, ih4, ?_⟩
      · simp only [List.map_cons]
        by_cases hn : stringToLower e = n
        · subst hn
          simp only [List.count_cons_self]
          omega
        · rw [List.count_cons_of_ne (fun h => hn h.symm),
            List.count_cons_of_ne (fun h => hn h.symm)]
          exact ih1
      · intro hmem
        rcases List.mem_cons.mp hmem with hmem | hmem
        · subst hmem
          exact Or.inl (find_some_eligCount store _ c hc)
        · exact ih5 hmem
    · have hnone : store.find? (fun c => c.email == stringToLower e) = none := by
        rcases h : store.find? (fun c => c.email == stringToLower e) with _ | c
        · exact h
        · rw [h] at hfind; simp at hfind
      have hloop : addCandidatesLoop now name? origLen (e :: rest) store
          = ((stringToLower e)
               :: (addCandidatesLoop now name? origLen rest
                  (store ++ [⟨stringToLower e,
                    if origLen = 1 then name? else none, now, "admin"⟩])).1,
             (addCandidatesLoop now name? origLen rest
                  (store ++ [⟨stringToLower e,
                    if origLen = 1 then name? else none, now, "admin"⟩])).2.1,
             (addCandidatesLoop now name? origLen rest
                  (store ++ [⟨stringToLower e,
                    if origLen = 1 then name? else none, now, "admin"⟩])).2.2) := by
        simp only [addCandidatesLoop, hnone]
      set store2 := store ++ [(⟨stringToLower e,
        if origLen = 1 then name? else none, now, "admin"⟩ : EligibleCandidate)]
        with hstore2
      obtain ⟨ih1, ih2, ih3, ih4, ih5⟩ := ih store2 n
      have hcount2 : eligCount store2 n
          = eligCount store n + (if stringToLower e = n then 1 else 0) := by
        rw [hstore2]
        exact eligCount_append_one store _ n
      rw [hloop]
      by_cases hn : stringToLower e = n
      · subst hn
        have hzero : eligCount store (stringToLower e) = 0 :=
          find_none_eligCount store _ hnone
        have hnotrec : stringToLower e
            ∉ (addCandidatesLoop now name? origLen rest store2).1 := by
          intro hmem
          have := ih2 hmem
          rw [hcount2] at this
          simp at this
        have hrec0 :
            (addCandidatesLoop now name? origLen rest store2).1.count
              (stringToLower e) = 0 :=
          List.count_eq_zero.mpr hnotrec
        refine ⟨?_, fun _ => hzero, ?_, ?_,
          fun _ => Or.inr (List.mem_cons_self _ _)⟩
        · simp only [List.map_cons, List.count_cons_self]
          rw [hrec0] at ih1
          rw [hrec0]
          omega
        · rw [List.count_cons_self, hrec0]
        · rw [ih4, hcount2, List.count_cons_self, hrec0]
          simp
      · have hne : ¬ n = stringToLower e := fun h => hn h.symm
        refine ⟨?_, ?_, ?_, ?_, ?_⟩
        · simp only [List.map_cons]
          rw [List.count_cons_of_ne hne, List.count_cons_of_ne hne]
          exact ih1
        · intro hmem
          rcases List.mem_cons.mp hmem with hmem | hmem
          · exact absurd hmem.symm hn
          · have := ih2 hmem
            rw [hcount2] at this
            omega
        · rw [List.count_cons_of_ne hne]
          exact ih3
        · rw [ih4, hcount2, List.count_cons_of_ne hne]
          simp [hn]
        · intro hmem
          rcases ih5 hmem with hge | hmem2
          · rw [hcount2] at hge
            simp only [if_neg hn] at hge
            exact Or.inl (by omega)
          · exact Or.inr (List.mem_cons_of_mem _ hmem2)

/-- C8: whenever POST /admin/candidates succeeds, every normalized address n
is reported exactly as often as it occurs in the (lowercased) request list —
split between added and alreadyExists — with at most one report under added;
n is reported under added exactly when it occurs in the request and was not
yet stored (later duplicates and already-stored addresses land under
alreadyExists); storage gains exactly the added addresses, so a store with
at most one eligible-candidate record per normalized email keeps that
property. -/
theorem c8_add_candidates :
    ∀ (now : Nat) (email? : Option String) (emails? : Option (List String))
      (name? : Option String) (db : Db) (added alreadyExists : List String)
      (db2 : Db) (n : String),
      addCandidatesHandler now email? emails? name? db
        = (AddOutcome.ok added alreadyExists, db2) →
      (added.count n + alreadyExists.count n
        = ((requestEmailList email? emails?).map stringToLower).count n) ∧
      added.count n ≤ 1 ∧
      (n ∈ added ↔
        (n ∈ (requestEmailList email? emails?).map stringToLower ∧
          eligCount db.eligibleCandidates n = 0)) ∧
      (eligCount db2.eligibleCandidates n
        = eligCount db.eligibleCandidates n + added.count n) ∧
      (eligCount db.eligibleCandidates n ≤ 1 →
        eligCount db2.eligibleCandidates n ≤ 1) := by
  intro now email? emails? name? db added alreadyExists db2 n h
  simp only [addCandidatesHandler] at h
  split_ifs at h with h1 h2
  · exact absurd h (by simp)
  · exact absurd h (by simp)
  simp only [Prod.mk.injEq, AddOutcome.ok.injEq] at h
  obtain ⟨⟨ha, hx⟩, hdb⟩ := h
  obtain ⟨s1, s2, s3, s4, s5⟩ := addCandidatesLoop_spec now name?
    (requestEmailList email? emails?).length (requestEmailList email? emails?)
    db.eligibleCandidates n
  subst ha
  subst hx
  have hdb2 : db2.eligibleCandidates
      = (addCandidatesLoop now name? (requestEmailList email? emails?).length
          (requestEmailList email? emails?) db.eligibleCandidates).2.2 := by
    rw [← hdb]
  rw [hdb2]
  refine ⟨s1, s3, ⟨?_, ?_⟩, s4, fun hle => ?_⟩
  · intro hmem
    refine ⟨?_, s2 hmem⟩
    have hc : ¬ (addCandidatesLoop now name?
        (requestEmailList email? emails?).length
        (requestEmailList email? emails?) db.eligibleCandidates).1.count n = 0 :=
      fun h0 => (List.count_eq_zero.mp h0) hmem
    have : ¬ ((requestEmailList email? emails?).map stringToLower).count n = 0 := by
      omega
    exact by_contra fun hnm => this (List.count_eq_zero.mpr hnm)
  · rintro ⟨hmem, hzero⟩
    by_contra hnadd
    have hadd0 : (addCandidatesLoop now name?
        (requestEmailList email? emails?).length
        (requestEmailList email? emails?) db.eligibleCandidates).1.count n = 0 :=
      List.count_eq_zero.mpr hnadd
    have hmapc : ¬ ((requestEmailList email? emails?).map stringToLower).count n = 0 :=
      fun h0 => (List.count_eq_zero.mp h0) hmem
    have hxc : ¬ (addCandidatesLoop now name?
        (requestEmailList email? emails?).length
        (requestEmailList email? emails?) db.eligibleCandidates).2.1.count n = 0 := by
      omega
    have hxmem : n ∈ (addCandidatesLoop now name?
        (requestEmailList email? emails?).length
        (requestEmailList email? emails?) db.eligibleCandidates).2.1 :=
      by_contra fun hnm => hxc (List.count_eq_zero.mpr hnm)
    rcases s5 hxmem with hge | hmem2
    · omega
    · exact hnadd hmem2
  · by_cases hz : eligCount db.eligibleCandidates n = 0
    · omega
    · have hnm : (addCandidatesLoop now name?
          (requestEmailList email? emails?).length
          (requestEmailList email? emails?) db.eligibleCandidates).1.count n
          = 0 :=
        List.count_eq_zero.mpr (fun hm => hz (s2 hm))
      omega

/-- Witness for C8: the batch request with the same address twice (differing
in case) against an empty store reports it once under added and once under
alreadyExists and stores a single record. -/
theorem c8_add_candidates_witness :
    (addCandidatesHandler 0 none (some ["A@b.co", "a@b.co"]) none
        (Db.mk [] [] [])
      = (AddOutcome.ok ["a@b.co"] ["a@b.co"],
         Db.mk [] [] [EligibleCandidate.mk "a@b.co" none 0 "admin"])) ∧
    ((["a@b.co"] : List String).count "a@b.co"
        + (["a@b.co"] : List String).count "a@b.co"
      = ((requestEmailList none (some ["A@b.co", "a@b.co"])).map
          stringToLower).count "a@b.co") ∧
    (["a@b.co"] : List String).count "a@b.co" ≤ 1 ∧
    ("a@b.co" ∈ (["a@b.co"] : List String) ↔
      ("a@b.co" ∈ (requestEmailList none (some ["A@b.co", "a@b.co"])).map
          stringToLower ∧
        eligCount (Db.mk [] [] []).eligibleCandidates "a@b.co" = 0)) ∧
    (eligCount (Db.mk [] []
          [EligibleCandidate.mk "a@b.co" none 0 "admin"]).eligibleCandidates
        "a@b.co"
      = eligCount (Db.mk [] [] []).eligibleCandidates "a@b.co"
        + (["a@b.co"] : List String).count "a@b.co") ∧
    (eligCount (Db.mk [] [] []).eligibleCandidates "a@b.co" ≤ 1 →
      eligCount (Db.mk [] []
          [EligibleCandidate.mk "a@b.co" none 0 "admin"]).eligibleCandidates
        "a@b.co" ≤ 1) := by
  have h : addCandidatesHandler 0 none (some ["A@b.co", "a@b.co"]) none
      (Db.mk [] [] [])
      = (AddOutcome.ok ["a@b.co"] ["a@b.co"],
         Db.mk [] [] [EligibleCandidate.mk "a@b.co" none 0 "admin"]) := by
    decide
  obtain ⟨p1, p2, p3, p4, p5⟩ := c8_add_candidates 0 none
    (some ["A@b.co", "a@b.co"]) none (Db.mk [] [] []) ["a@b.co"] ["a@b.co"]
    (Db.mk [] [] [EligibleCandidate.mk "a@b.co" none 0 "admin"]) "a@b.co" h
  exact ⟨h, p1, p2, p3, p4, p5⟩

end Payport
